import Mathlib

/-!
Verification of the astrometry-worker repository: a shallow embedding of
the object-reconciler merge, the separation sort, the JSON normalizer
`to_native`, the `.wcs` header reader, the angular-separation geometry,
and the job store / worker state machine of `astro_jobs_cli.py`, together
with theorems settling the frozen claims about them.
-/

/-! ## ObjectReconciler: the merge of `run_solve_field` (astro_extract.py:426-445)

An object mention is a dict with keys among `raw`, `name`, `catalog`, `id`,
`ra_deg`, `dec_deg`, `sep_arcmin`; absent keys are `none`.  Python floats
are modelled as rationals. -/

structure Obj where
  raw : Option String := none
  name : Option String := none
  catalog : Option String := none
  id : Option String := none
  ra_deg : Option ℚ := none
  dec_deg : Option ℚ := none
  sep_arcmin : Option ℚ := none
deriving DecidableEq, Repr

/-- `def norm(s): return s.lower().strip()` (astro_extract.py:422-423). -/
def normName (s : String) : String := s.toLower.trim

/-- The merge key of an entry: `norm(o2.get("name", o2.get("raw", "")))`. -/
def normKey (o : Obj) : String :=
  normName (match o.name with
    | some n => n
    | none => match o.raw with
      | some r => r
      | none => "")

/-- `o2.update({k: v for k, v in match.items() if k not in ("raw",)})`:
every key present in `m` except `raw` overwrites the base entry. -/
def updOpt {α : Type} (m o : Option α) : Option α :=
  match m with
  | some v => some v
  | none => o

def updateFrom (o m : Obj) : Obj :=
  { raw := o.raw
    name := updOpt m.name o.name
    catalog := updOpt m.catalog o.catalog
    id := updOpt m.id o.id
    ra_deg := updOpt m.ra_deg o.ra_deg
    dec_deg := updOpt m.dec_deg o.dec_deg
    sep_arcmin := updOpt m.sep_arcmin o.sep_arcmin }

/-- `for p in objs_with_radec: if "name" in p and norm(p["name"]) == key:
match = p; break` — the first auxiliary entry whose normalized name is
`key` (entries without a name are skipped). -/
def findMatch (key : String) : List Obj → Option Obj
  | [] => none
  | p :: ps =>
    match p.name with
    | some n => if normName n = key then some p else findMatch key ps
    | none => findMatch key ps

/-- The loop over `astro["objects"]` (list A): each A entry is enriched
with the first matching auxiliary entry and its key is recorded in `used`. -/
def mergeLoopA (B : List Obj) : List Obj → List Obj × List String
  | [] => ([], [])
  | o :: os =>
    let key := normKey o
    let o2 := match findMatch key B with
      | some m => updateFrom o m
      | none => o
    let rest := mergeLoopA B os
    (o2 :: rest.1, key :: rest.2)

/-- The loop over `objs_with_radec` (list B): an entry with a name whose
key is not in `used` is appended; entries without a name are skipped. -/
def mergeLoopB (used : List String) : List Obj → List Obj
  | [] => []
  | p :: ps =>
    match p.name with
    | some n =>
      if used.contains (normName n) then mergeLoopB used ps
      else p :: mergeLoopB used ps
    | none => mergeLoopB used ps

/-- The whole merge (astro_extract.py:426-445). -/
def mergeObjects (A B : List Obj) : List Obj :=
  let r := mergeLoopA B A
  r.1 ++ mergeLoopB r.2 B

/-- Spec-side reading of "the first element of B whose normalized name
equals the key": the head of the sublist of B whose entries carry a
matching name. -/
def firstMatchSpec (key : String) (B : List Obj) : Option Obj :=
  (B.filter (fun p =>
    match p.name with
    | some n => normName n = key
    | none => false)).head?

/-- Spec-side enrichment of one free-text entry. -/
def enrichSpec (B : List Obj) (o : Obj) : Obj :=
  match firstMatchSpec (normKey o) B with
  | some m => updateFrom o m
  | none => o

/-! ## The separation sort (astro_extract.py:453)

`merged.sort(key=lambda x: x.get("sep_arcmin", 1e9))` — Python's `sort`
is an ascending stable sort; the model is the stable `List.mergeSort`. -/

/-- The Python sort key: the entry's separation, `1e9` when absent. -/
def sortKey (o : Obj) : ℚ :=
  match o.sep_arcmin with
  | some s => s
  | none => 10 ^ 9

def sortObjs (l : List Obj) : List Obj :=
  l.mergeSort (fun a b => decide (sortKey a ≤ sortKey b))

/-! ## Geometry: `angsep_deg` (astro_extract.py:206-216)

The great-circle separation via the spherical law of cosines, with the
cosine clamped to `[-1, 1]` before `acos`.  Modelled over the reals. -/

noncomputable def radiansOf (d : ℝ) : ℝ := d * (Real.pi / 180)

noncomputable def degreesOf (x : ℝ) : ℝ := x * (180 / Real.pi)

noncomputable def angsep_deg (ra1_deg dec1_deg ra2_deg dec2_deg : ℝ) : ℝ :=
  let ra1 := radiansOf ra1_deg
  let dec1 := radiansOf dec1_deg
  let ra2 := radiansOf ra2_deg
  let dec2 := radiansOf dec2_deg
  degreesOf (Real.arccos (max (-1) (min 1
    (Real.sin dec1 * Real.sin dec2 +
      Real.cos dec1 * Real.cos dec2 * Real.cos (ra1 - ra2)))))

/-! ## The `.wcs` header block (astro_extract.py:404-415)

The header is a finite map from field names to numeric values (`hdr.get`
returns `None` for a missing field).  The block runs inside one
`try/except`: `float(None)` raises, so a missing `CRVAL1` (resp. `CRVAL2`)
aborts the block after zero (resp. one) `setdefault` mutations, and the
CD-matrix comprehension keeps exactly the present fields. -/

abbrev Hdr := List (String × ℚ)

def hdrGet (hdr : Hdr) (k : String) : Option ℚ :=
  List.lookup k hdr

structure Astro where
  ra_center : Option ℚ := none
  dec_center : Option ℚ := none
  cd_matrix : Option (List (String × ℚ)) := none
deriving DecidableEq, Repr

/-- `astro.setdefault("ra_center", v)`. -/
def setdefaultRa (a : Astro) (v : ℚ) : Astro :=
  match a.ra_center with
  | some _ => a
  | none => { a with ra_center := some v }

/-- `astro.setdefault("dec_center", v)`. -/
def setdefaultDec (a : Astro) (v : ℚ) : Astro :=
  match a.dec_center with
  | some _ => a
  | none => { a with dec_center := some v }

/-- `{k: float(hdr.get(k)) for k in ("CD1_1","CD1_2","CD2_1","CD2_2")
if hdr.get(k) is not None}`. -/
def cdFields (hdr : Hdr) : List (String × ℚ) :=
  ["CD1_1", "CD1_2", "CD2_1", "CD2_2"].filterMap
    (fun k => (hdrGet hdr k).map (fun v => (k, v)))

/-- The body of `if wcs_file.exists(): try: ... except: pass`
(astro_extract.py:407-415). -/
def read_wcs (a : Astro) (hdr : Hdr) : Astro :=
  match hdrGet hdr "CRVAL1" with
  | none => a
  | some v1 =>
    let a1 := setdefaultRa a v1
    match hdrGet hdr "CRVAL2" with
    | none => a1
    | some v2 =>
      let a2 := setdefaultDec a1 v2
      let cd := cdFields hdr
      if cd.isEmpty then a2 else { a2 with cd_matrix := some cd }

/-! ## `to_native` (astro_extract.py:45-85)

Python values are the inductive `PyVal`; floats, `Fraction`, `Decimal`
values are rationals.  An `IFDRational` carries the result of `float(obj)`
when that call succeeds (`none` models the `except` branch, which falls
back to `str(obj)`, the stored display string).  The numpy branch is
LIVE: the module imports `astropy.io.fits` unconditionally
(astro_extract.py:28) and astropy requires numpy, so the guarded
`import numpy` succeeds wherever `to_native` runs.  A numpy scalar
(`np.generic`) is `vNpGeneric item`, where `item` is the Python value
`obj.item()` returns — a float for `np.float64`, but a (non-primitive)
Python `complex` for `np.complex128`, a `datetime` for `np.datetime64`,
a tuple for `np.void` — and `to_native` returns it UNNORMALIZED; an
`np.ndarray` is `vNdarray` of its `tolist()` elements, each of which is
normalized. -/

inductive PyVal where
  | vNone : PyVal
  | vBool (b : Bool) : PyVal
  | vInt (n : ℤ) : PyVal
  | vFloat (q : ℚ) : PyVal
  | vStr (s : String) : PyVal
  | vFraction (q : ℚ) : PyVal
  | vDecimal (q : ℚ) : PyVal
  | vIFDRational (asFloat : Option ℚ) (display : String) : PyVal
  | vBytes (bs : List Nat) : PyVal
  | vNpGeneric (item : PyVal) : PyVal
  | vNdarray (xs : List PyVal) : PyVal
  | vDict (entries : List (PyVal × PyVal)) : PyVal
  | vList (xs : List PyVal) : PyVal
  | vTuple (xs : List PyVal) : PyVal
  | vSet (xs : List PyVal) : PyVal
  | vOther (display : String) : PyVal
deriving Repr

/-- Python's `str(obj)`, as used for dict keys and the final fallback:
on a `str` it is the identity, elsewhere a deterministic rendering. -/
def pyStr : PyVal → String
  | .vNone => "None"
  | .vBool b => if b then "True" else "False"
  | .vInt n => toString n
  | .vFloat q => toString q
  | .vStr s => s
  | .vFraction q => toString q
  | .vDecimal q => toString q
  | .vIFDRational _ d => d
  | .vBytes bs => toString bs
  | .vNpGeneric _ => "<np-scalar>"
  | .vNdarray _ => "<np-ndarray>"
  | .vDict _ => "<dict>"
  | .vList _ => "<list>"
  | .vTuple _ => "<tuple>"
  | .vSet _ => "<set>"
  | .vOther d => d

/-- `obj.decode("utf-8", errors="replace")`: a total decoding of the byte
list to text (with replacement, it never raises). -/
def bytesDecode (bs : List Nat) : String :=
  String.mk (bs.map Char.ofNat)

mutual

/-- `to_native` (astro_extract.py:45-85). -/
def to_native : PyVal → PyVal
  | .vNone => .vNone
  | .vBool b => .vBool b
  | .vInt n => .vInt n
  | .vFloat q => .vFloat q
  | .vStr s => .vStr s
  | .vFraction q => .vFloat q
  | .vDecimal q => .vFloat q
  | .vIFDRational t d =>
    match t with
    | some q => .vFloat q
    | none => .vStr d
  | .vBytes bs => .vStr (bytesDecode bs)
  | .vNpGeneric item => item
  | .vNdarray xs => .vList (to_nativeList xs)
  | .vDict es => .vDict (to_nativeEntries es)
  | .vList xs => .vList (to_nativeList xs)
  | .vTuple xs => .vList (to_nativeList xs)
  | .vSet xs => .vList (to_nativeList xs)
  | .vOther d => .vStr d

/-- `{str(k): to_native(v) for k, v in obj.items()}`. -/
def to_nativeEntries : List (PyVal × PyVal) → List (PyVal × PyVal)
  | [] => []
  | (k, v) :: es => (.vStr (pyStr k), to_native v) :: to_nativeEntries es

/-- `[to_native(x) for x in obj]`. -/
def to_nativeList : List PyVal → List PyVal
  | [] => []
  | x :: xs => to_native x :: to_nativeList xs

end

mutual

/-- Whether a value contains no numpy scalar (`np.generic`) in any
position `to_native` recurses into.  Dict keys are exempt: `to_native`
only ever applies `str` to them. -/
def npFree : PyVal → Bool
  | .vNpGeneric _ => false
  | .vNdarray xs => npFreeList xs
  | .vDict es => npFreeEntries es
  | .vList xs => npFreeList xs
  | .vTuple xs => npFreeList xs
  | .vSet xs => npFreeList xs
  | _ => true

def npFreeEntries : List (PyVal × PyVal) → Bool
  | [] => true
  | (_, v) :: es => npFree v && npFreeEntries es

def npFreeList : List PyVal → Bool
  | [] => true
  | x :: xs => npFree x && npFreeList xs

end

/-! ## Job store and worker (astro_jobs_cli.py)

The persisted footprint under `$JOBS_DIR` is a `Store`: which job
directory trees exist, the `status.json` documents, the
`output/result.json` documents, the copied inputs and the appended log
texts (each map is newest-first, read through `List.lookup`).  Every
persistence operation also appends an `Ev` to an event trace, recording
the order in which the filesystem changed; `time.time()` is a counter. -/

structure JobParams where
  scale_low : Option ℚ := none
  scale_high : Option ℚ := none
  downsample : Option ℤ := none
  timeout : Option ℤ := none
deriving DecidableEq, Repr

structure StatusDoc where
  job_id : String
  state : String
  message : Option String
  params : Option JobParams
  created_at : Nat
  updated_at : Nat
deriving DecidableEq, Repr

/-- A result document, as far as the worker reads it: the `ok` flag and
`error` key may be absent in parsed JSON, `raw` holds the tail of an
unparseable stdout. -/
structure ResultDoc where
  ok : Option Bool := none
  error : Option String := none
  raw : Option String := none
deriving DecidableEq, Repr

inductive Ev where
  | mkdirs (jid : String) : Ev
  | wroteStatus (jid state : String) : Ev
  | wroteResult (jid : String) : Ev
  | wroteLog (jid : String) : Ev
  | copiedInput (jid : String) : Ev
  | spawned (jid : String) : Ev
deriving DecidableEq, Repr

structure Store where
  dirs : List String := []
  statuses : List (String × StatusDoc) := []
  results : List (String × ResultDoc) := []
  inputs : List (String × String) := []
  logs : List (String × String) := []
  events : List Ev := []
  clock : Nat := 0
deriving DecidableEq, Repr

/-- `ensure_job_dirs` (astro_jobs_cli.py:69-78): `mkdir(parents=True,
exist_ok=True)` for the job's `input/` and `output/` trees — it creates
the directories when missing and is otherwise a no-op. -/
def ensure_job_dirs (st : Store) (jid : String) : Store :=
  if st.dirs.contains jid then st
  else { st with dirs := jid :: st.dirs, events := st.events ++ [Ev.mkdirs jid] }

/-- The status document `write_status` builds against a store: the
existing document if present (a fresh one stamped `created_at = now`
otherwise), overlaid with the new state, message and `updated_at`, and
with `params` overlaid only when provided (`params or
current.get("params")`). -/
def statusDocNow (st : Store) (jid state : String) (message : Option String)
    (params : Option JobParams) : StatusDoc :=
  let now := st.clock
  let current : StatusDoc :=
    match st.statuses.lookup jid with
    | some d => d
    | none =>
      { job_id := jid, state := "", message := none, params := none,
        created_at := now, updated_at := now }
  { current with
      job_id := jid, state := state, message := message,
      params := updOpt params current.params, updated_at := now }

/-- `write_status` (astro_jobs_cli.py:81-99): read-modify-write of
`status.json` after `ensure_job_dirs`. -/
def write_status (st : Store) (jid state : String) (message : Option String)
    (params : Option JobParams) : Store :=
  let st1 := ensure_job_dirs st jid
  { st1 with
      statuses := (jid, statusDocNow st1 jid state message params) :: st1.statuses,
      events := st1.events ++ [Ev.wroteStatus jid state],
      clock := st1.clock + 1 }

/-- `read_status` (astro_jobs_cli.py:102-109): it too calls
`ensure_job_dirs`, then returns the document or `None`. -/
def read_status (st : Store) (jid : String) : Store × Option StatusDoc :=
  let st1 := ensure_job_dirs st jid
  (st1, st1.statuses.lookup jid)

/-- `paths.result_file.write_text(json.dumps(result, ...))`. -/
def write_result (st : Store) (jid : String) (r : ResultDoc) : Store :=
  { st with
      results := (jid, r) :: st.results,
      events := st.events ++ [Ev.wroteResult jid] }

/-- Appending to `task.log`. -/
def append_log (st : Store) (jid : String) (txt : String) : Store :=
  { st with
      logs := (jid, txt) :: st.logs,
      events := st.events ++ [Ev.wroteLog jid] }

/-- `str(result.get("error"))`: Python renders an absent key as the
string `"None"`. -/
def pyStrOfOpt : Option String → String
  | some s => s
  | none => "None"

/-- `stdout[-2000:]`. -/
def strTakeRight (s : String) (n : Nat) : String :=
  String.mk (s.data.drop (s.data.length - n))

/-- What happened when the worker ran `astro_extract` through
`subprocess.run(..., shell=True)`: either the call itself raised, or the
child ran to an exit code with some stdout, whose `json.loads` parse is
`parsed` (`none` when the text is not a JSON document). -/
inductive ExecOutcome where
  | raised (msg : String) : ExecOutcome
  | ran (returncode : ℤ) (stdout : String) (parsed : Option ResultDoc) : ExecOutcome
deriving DecidableEq, Repr

/-- The result document `run_worker` derives from the child's outcome
(astro_jobs_cli.py:155-161). -/
def worker_result (rc : ℤ) (stdout : String) (parsed : Option ResultDoc) : ResultDoc :=
  if rc = 0 ∨ rc = 2 then
    match parsed with
    | some r => r
    | none =>
      { ok := some false, error := some "Invalid JSON from astro_extract",
        raw := some (strTakeRight stdout 2000) }
  else
    { ok := some false, error := some ("astro_extract exit code " ++ toString rc) }

/-- `run_worker` (astro_jobs_cli.py:116-170), returning the new store and
the function's exit code.  The subprocess execution itself is the
`outcome` input. -/
def run_worker (st : Store) (jid : String) (image : String) (params : JobParams)
    (outcome : ExecOutcome) : Store × ℤ :=
  let stA := ensure_job_dirs st jid
  let stB := write_status stA jid "processing" (some "Solving image…") (some params)
  match outcome with
  | .raised e =>
    (write_status stB jid "error" (some ("Execution failed: " ++ e)) none, 1)
  | .ran rc stdout parsed =>
    let stC := append_log stB jid stdout
    let result := worker_result rc stdout parsed
    let stD := write_result stC jid result
    if result.ok = some true then
      (write_status stD jid "done" (some "Analysis complete") none, 0)
    else
      (write_status stD jid "error" (some (pyStrOfOpt result.error)) none, 2)

/-- What a CLI command prints. -/
inductive CliOut where
  | submitErr (msg : String) : CliOut
  | submitOk (jid : String) : CliOut
  | statusNotFound (jid : String) : CliOut
  | statusOk (d : StatusDoc) : CliOut
  | resultNotReady (state : String) (jid : String) : CliOut
  | resultDoc (d : ResultDoc) : CliOut
deriving DecidableEq, Repr

/-- `cmd_submit` (astro_jobs_cli.py:177-228) up to spawning the worker:
the job directories are created first, then the image reference is
checked, and only on success are the input copied, the `queued` status
written and the detached worker spawned.  `imageExists` is the
`src.exists()` test, `jid` the fresh `uuid4` hex. -/
def cmd_submit (st : Store) (jid : String) (imageExists : Bool) (imageName : String)
    (params : JobParams) : Store × ℤ × CliOut :=
  let st1 := ensure_job_dirs st jid
  if imageExists then
    let st2 := { st1 with
        inputs := (jid, imageName) :: st1.inputs,
        events := st1.events ++ [Ev.copiedInput jid] }
    let st3 := write_status st2 jid "queued" (some "Job created") (some params)
    let st4 := { st3 with events := st3.events ++ [Ev.spawned jid] }
    (st4, 0, .submitOk jid)
  else
    (st1, 1, .submitErr ("Image not found: " ++ imageName))

/-- `cmd_status` (astro_jobs_cli.py:231-237). -/
def cmd_status (st : Store) (jid : String) : Store × ℤ × CliOut :=
  let r := read_status st jid
  match r.2 with
  | none => (r.1, 1, .statusNotFound jid)
  | some d => (r.1, 0, .statusOk d)

/-- `cmd_result` (astro_jobs_cli.py:240-253): `ensure_job_dirs`, then the
stored result document verbatim, or a not-ready record naming the current
state. -/
def cmd_result (st : Store) (jid : String) : Store × ℤ × CliOut :=
  let st1 := ensure_job_dirs st jid
  match st1.results.lookup jid with
  | none =>
    let r := read_status st1 jid
    let state := match r.2 with
      | some d => d.state
      | none => "unknown"
    (r.1, 1, .resultNotReady state jid)
  | some d => (st1, 0, .resultDoc d)

/-! ## astro_extract's top level (astro_extract.py:463-518)

What the worker's child process can print and exit with, per
`main()`: a missing image prints an error document and exits 1; a
`run_solve_field` exception prints an error document carrying `str(e)`
and exits 2; success prints the `ok=true` result and exits 0.  The two
exceptions `run_solve_field` raises are `RuntimeError("solve-field
timeout")` and `RuntimeError(f"solve-field failed (code ...)...")`
(astro_extract.py:334-342). -/

inductive SolveFailure where
  | timeout : SolveFailure
  | failed (code : ℤ) (stdout stderr : String) : SolveFailure
deriving DecidableEq, Repr

def solveFailureMsg : SolveFailure → String
  | .timeout => "solve-field timeout"
  | .failed code out err =>
    "solve-field failed (code " ++ toString code ++ ").\n--- STDOUT ---\n"
      ++ out ++ "\n--- STDERR ---\n" ++ err

inductive ExtractOutcome where
  | imageMissing (path : String) : ExtractOutcome
  | solveRaised (f : SolveFailure) : ExtractOutcome
  | solved : ExtractOutcome
deriving DecidableEq, Repr

def extract_exit : ExtractOutcome → ℤ
  | .imageMissing _ => 1
  | .solveRaised _ => 2
  | .solved => 0

def extract_doc : ExtractOutcome → ResultDoc
  | .imageMissing p => { ok := some false, error := some ("Image not found: " ++ p) }
  | .solveRaised f => { ok := some false, error := some (solveFailureMsg f) }
  | .solved => { ok := some true }

/-- A worker run whose child really was `astro_extract`: the exit code
and parsed stdout are those of `main()`. -/
def extract_to_exec (eo : ExtractOutcome) : ExecOutcome :=
  .ran (extract_exit eo) "" (some (extract_doc eo))


/-! ## Concrete inputs and spec-side predicates used by the theorems -/

def objW1 : Obj := { name := some "a", sep_arcmin := some 5 }

def objW2 : Obj := { name := some "b" }

def objW3 : Obj := { name := some "c", sep_arcmin := some 2 }

def listW : List Obj := [objW1, objW2, objW3]

/-- A numpy-scalar-free Python value exercising the dict, ndarray, list
and scalar-conversion branches of `to_native`. -/
def pyValW : PyVal :=
  PyVal.vList
    [PyVal.vFraction 2,
     PyVal.vNdarray [PyVal.vFloat 1],
     PyVal.vDict [(PyVal.vInt 3, PyVal.vBytes [77])]]

def astroEmpty : Astro := {}

def hdrPartialCd : Hdr := [("CRVAL1", 10), ("CRVAL2", 20), ("CD1_1", 1)]

def hdrFullCd : Hdr :=
  [("CRVAL1", 10), ("CRVAL2", 20), ("CD1_1", 1), ("CD1_2", 2), ("CD2_1", 3), ("CD2_2", 4)]

/-- The persistence events a run appended to the trace. -/
def newEvents (st st' : Store) : List Ev :=
  st'.events.drop st.events.length

/-- "The result document is persisted before the status flips to `done`":
every `done` status write in the trace is preceded by a result write. -/
def resultBeforeDone (jid : String) (evs : List Ev) : Prop :=
  ∀ pre post, evs = pre ++ Ev.wroteStatus jid "done" :: post →
    Ev.wroteResult jid ∈ pre

def storeEmpty : Store := {}

def paramsEmpty : JobParams := {}

/-- After a failing run in which the child process did run, the store
holds an `ok=false` result document with a non-empty error message, the
status is `error` carrying that message, and `cmd_result` returns the
stored document. -/
def postFail (st : Store) (jid image : String) (p : JobParams) (oc : ExecOutcome) : Prop :=
  ∃ r : ResultDoc,
    (run_worker st jid image p oc).1.results.lookup jid = some r ∧
    r.ok = some false ∧
    (∃ e, r.error = some e ∧ e ≠ "") ∧
    (((run_worker st jid image p oc).1.statuses.lookup jid).map StatusDoc.state
      = some "error") ∧
    (((run_worker st jid image p oc).1.statuses.lookup jid).bind StatusDoc.message
      = some (pyStrOfOpt r.error)) ∧
    (cmd_result (run_worker st jid image p oc).1 jid).2.2 =
      CliOut.resultDoc r

/-! ## Theorems about the merge (claims C1, C2) -/

theorem findMatch_eq_firstMatchSpec (key : String) :
    ∀ B : List Obj, findMatch key B = firstMatchSpec key B := by
  intro B
  induction B with
  | nil => rfl
  | cons p ps ih =>
    cases hp : p.name with
    | none =>
      simp only [findMatch, hp, firstMatchSpec, List.filter_cons] at ih ⊢
      simpa [hp] using ih
    | some n =>
      by_cases hk : normName n = key
      · simp [findMatch, hp, hk, firstMatchSpec, List.filter_cons]
      · simp only [findMatch, hp, hk, if_false, firstMatchSpec, List.filter_cons] at ih ⊢
        simpa [hp, hk] using ih

theorem mergeLoopA_eq (B : List Obj) :
    ∀ A : List Obj, mergeLoopA B A = (A.map (enrichSpec B), A.map normKey) := by
  intro A
  induction A with
  | nil => rfl
  | cons o os ih =>
    simp only [mergeLoopA, ih, List.map_cons]
    refine Prod.ext ?_ rfl
    simp [enrichSpec, findMatch_eq_firstMatchSpec]

/-- C1: in the `ObjectReconciler` merge, the first `|A|` entries of the
output are exactly the entries of A, in order, each enriched (via
`updateFrom`, every field but `raw`) with the head of the sublist of B
whose normalized name equals its own normalized key — so each A entry
appears exactly once and only the first matching B entry contributes to
it, later same-name B entries contributing nothing. -/
theorem merge_each_A_entry_once_first_match_wins (A B : List Obj) :
    (mergeObjects A B).take A.length = A.map (enrichSpec B) ∧
    A.length ≤ (mergeObjects A B).length := by
  have h : mergeObjects A B = A.map (enrichSpec B) ++ mergeLoopB (A.map normKey) B := by
    simp [mergeObjects, mergeLoopA_eq]
  constructor
  · rw [h, List.take_left' (by simp)]
  · rw [h]
    simp

theorem mergeLoopB_eq_filter (used : List String) :
    ∀ B : List Obj,
      mergeLoopB used B =
        B.filter (fun p =>
          match p.name with
          | some n => !(used.contains (normName n))
          | none => false) := by
  intro B
  induction B with
  | nil => rfl
  | cons p ps ih =>
    cases hp : p.name with
    | none => simp [mergeLoopB, hp, List.filter_cons, ih]
    | some n =>
      by_cases hc : used.contains (normName n)
      · simp [mergeLoopB, hp, hc, List.filter_cons, ih]
      · simp [mergeLoopB, hp, hc, List.filter_cons, ih]

/-- C2 counterexample: an auxiliary record without a usable name (a
raw-only parse-failure record) is NOT preserved in the merged output —
with no free-text mentions at all, the merge of the single raw-only
record is empty. -/
theorem merge_drops_nameless_aux_record :
    mergeObjects [] [({ raw := some "not parseable 1 2" } : Obj)] = [] := by rfl

/-- C2 amended: every B entry carrying a name whose normalized form
matches no A entry's key is appended exactly once, in B's original order
(duplicate normalized names in B are each kept); a B entry lacking a
usable name participates in no matching and is OMITTED from the merged
output (rather than preserved verbatim in it). -/
theorem merge_B_leftovers_appended_nameless_dropped (A B : List Obj) :
    (mergeObjects A B).drop A.length =
      B.filter (fun p =>
        match p.name with
        | some n => !((A.map normKey).contains (normName n))
        | none => false) ∧
    ∀ (key : String) (p : Obj) (B' : List Obj),
      p.name = none → findMatch key (p :: B') = findMatch key B' := by
  constructor
  · have h : mergeObjects A B = A.map (enrichSpec B) ++ mergeLoopB (A.map normKey) B := by
      simp [mergeObjects, mergeLoopA_eq]
    rw [h, List.drop_left' (by simp), mergeLoopB_eq_filter]
  · intro key p B' hp
    simp [findMatch, hp]

/-! ## Theorems about the sort (claim C3) -/

theorem sortLe_trans (a b c : Obj) :
    decide (sortKey a ≤ sortKey b) → decide (sortKey b ≤ sortKey c) →
    decide (sortKey a ≤ sortKey c) := by
  simp only [decide_eq_true_eq]
  exact le_trans

theorem sortLe_total (a b : Obj) :
    decide (sortKey a ≤ sortKey b) || decide (sortKey b ≤ sortKey a) := by
  simpa [Bool.or_eq_true, decide_eq_true_eq] using le_total (sortKey a) (sortKey b)

/-- C3: on a merged list all of whose present separations are below the
`1e9` sentinel (which the reconciler guarantees, see the `angsep_deg`
range theorem), the sorted list is ascending in `sep_arcmin`, every entry
lacking a separation comes after every entry having one, and the sort is
stable: any two entries in key order (in particular, equal separations,
or both missing) keep their relative pre-sort order. -/
theorem sort_sep_ascending_missing_last_stable (l : List Obj)
    (h : ∀ o ∈ l, ∀ s : ℚ, o.sep_arcmin = some s → s < 10 ^ 9) :
    ((sortObjs l).Pairwise (fun a b => sortKey a ≤ sortKey b) ∧
      (sortObjs l).Pairwise (fun a b => a.sep_arcmin = none → b.sep_arcmin = none)) ∧
    ∀ a b : Obj, sortKey a = sortKey b → [a, b].Sublist l → [a, b].Sublist (sortObjs l) := by
  have hs : (sortObjs l).Pairwise (fun a b => sortKey a ≤ sortKey b) := by
    have := @List.sorted_mergeSort Obj (fun a b => decide (sortKey a ≤ sortKey b))
      sortLe_trans sortLe_total l
    exact this.imp (fun hab => of_decide_eq_true hab)
  refine ⟨⟨hs, ?_⟩, ?_⟩
  · refine hs.imp_of_mem ?_
    intro a b ha hb hab hna
    have hbl : b ∈ l := by
      have := List.mem_mergeSort.mp hb
      exact this
    cases hsb : b.sep_arcmin with
    | none => rfl
    | some s =>
      exfalso
      have hlt : s < 10 ^ 9 := h b hbl s hsb
      have hka : sortKey a = 10 ^ 9 := by simp [sortKey, hna]
      have hkb : sortKey b = s := by simp [sortKey, hsb]
      rw [hka, hkb] at hab
      exact absurd (lt_of_le_of_lt hab hlt) (lt_irrefl _)
  · intro a b hk hsub
    exact List.pair_sublist_mergeSort sortLe_trans sortLe_total
      (by rw [decide_eq_true_eq, hk])
      hsub

/-- Witness for the C3 sort theorem at a concrete three-entry list. -/
theorem sort_sep_witness :
    (∀ o ∈ listW, ∀ s : ℚ, o.sep_arcmin = some s → s < 10 ^ 9) ∧
    (((sortObjs listW).Pairwise (fun a b => sortKey a ≤ sortKey b) ∧
      (sortObjs listW).Pairwise (fun a b => a.sep_arcmin = none → b.sep_arcmin = none)) ∧
    ∀ a b : Obj, sortKey a = sortKey b → [a, b].Sublist listW →
      [a, b].Sublist (sortObjs listW)) := by
  have hw : ∀ o ∈ listW, ∀ s : ℚ, o.sep_arcmin = some s → s < 10 ^ 9 := by
    intro o ho s hs
    simp only [listW, List.mem_cons, List.not_mem_nil, or_false] at ho
    rcases ho with rfl | rfl | rfl <;> simp_all [objW1, objW2, objW3] <;> linarith
  exact ⟨hw, sort_sep_ascending_missing_last_stable listW hw⟩

/-! ## Theorems about the geometry (claim C10) -/

/-- C10: `angsep_deg` always lies in `[0, 180]` degrees, so the
separation in arc-minutes it induces is at most `10800`, strictly below
the `1e9` sentinel used by the sort for entries without a separation — a
real separation can never sort after a missing one. -/
theorem angsep_deg_range (ra1 dec1 ra2 dec2 : ℝ) :
    0 ≤ angsep_deg ra1 dec1 ra2 dec2 ∧
    angsep_deg ra1 dec1 ra2 dec2 ≤ 180 ∧
    angsep_deg ra1 dec1 ra2 dec2 * 60 ≤ 10800 ∧
    angsep_deg ra1 dec1 ra2 dec2 * 60 < 10 ^ 9 := by
  have hpi : (0 : ℝ) < Real.pi := Real.pi_pos
  set x := Real.arccos (max (-1) (min 1
    (Real.sin (radiansOf dec1) * Real.sin (radiansOf dec2) +
      Real.cos (radiansOf dec1) * Real.cos (radiansOf dec2) *
        Real.cos (radiansOf ra1 - radiansOf ra2)))) with hx
  have h0 : 0 ≤ x := Real.arccos_nonneg _
  have hπ : x ≤ Real.pi := Real.arccos_le_pi _
  have hval : angsep_deg ra1 dec1 ra2 dec2 = x * (180 / Real.pi) := by
    simp [angsep_deg, degreesOf, hx]
  have hfrac : (0 : ℝ) < 180 / Real.pi := by positivity
  have hnonneg : 0 ≤ angsep_deg ra1 dec1 ra2 dec2 := by
    rw [hval]; exact mul_nonneg h0 (le_of_lt hfrac)
  have hub : angsep_deg ra1 dec1 ra2 dec2 ≤ 180 := by
    rw [hval]
    calc x * (180 / Real.pi) ≤ Real.pi * (180 / Real.pi) :=
          mul_le_mul_of_nonneg_right hπ (le_of_lt hfrac)
      _ = 180 := by field_simp
  refine ⟨hnonneg, hub, ?_, ?_⟩
  · nlinarith
  · nlinarith

/-! ## Theorems about `to_native` (claim C8) -/

/-- C8 counterexample: `to_native` is NOT idempotent on every input.  On
a numpy scalar the code returns `obj.item()` unnormalized, and `.item()`
can be a non-primitive: for `np.complex128(1+2j)` it is the Python
complex `(1+2j)` (modelled as `vOther "(1+2j)"`, whose `str` display is
its rendering), which a second application of `to_native` converts to
its display string — the two applications differ. -/
theorem to_native_not_idempotent_on_numpy_scalar :
    to_native (to_native (PyVal.vNpGeneric (PyVal.vOther "(1+2j)"))) ≠
      to_native (PyVal.vNpGeneric (PyVal.vOther "(1+2j)")) := by
  intro h
  simp only [to_native] at h
  exact PyVal.noConfusion h

mutual

theorem to_native_idem_npFree :
    ∀ v : PyVal, npFree v = true → to_native (to_native v) = to_native v
  | .vNone, _ => rfl
  | .vBool _, _ => rfl
  | .vInt _, _ => rfl
  | .vFloat _, _ => rfl
  | .vStr _, _ => rfl
  | .vFraction _, _ => rfl
  | .vDecimal _, _ => rfl
  | .vIFDRational t _, _ => by cases t <;> rfl
  | .vBytes _, _ => rfl
  | .vNpGeneric _, h => by simp [npFree] at h
  | .vNdarray xs, h => by
    simp only [npFree] at h
    simp only [to_native]
    rw [to_nativeList_idem_npFree xs h]
  | .vDict es, h => by
    simp only [npFree] at h
    simp only [to_native]
    rw [to_nativeEntries_idem_npFree es h]
  | .vList xs, h => by
    simp only [npFree] at h
    simp only [to_native]
    rw [to_nativeList_idem_npFree xs h]
  | .vTuple xs, h => by
    simp only [npFree] at h
    simp only [to_native]
    rw [to_nativeList_idem_npFree xs h]
  | .vSet xs, h => by
    simp only [npFree] at h
    simp only [to_native]
    rw [to_nativeList_idem_npFree xs h]
  | .vOther _, _ => rfl

theorem to_nativeEntries_idem_npFree :
    ∀ es : List (PyVal × PyVal), npFreeEntries es = true →
      to_nativeEntries (to_nativeEntries es) = to_nativeEntries es
  | [], _ => rfl
  | (k, v) :: es, h => by
    have hx : npFree v = true ∧ npFreeEntries es = true := by
      simpa [npFreeEntries, Bool.and_eq_true] using h
    simp only [to_nativeEntries, pyStr]
    rw [to_native_idem_npFree v hx.1, to_nativeEntries_idem_npFree es hx.2]

theorem to_nativeList_idem_npFree :
    ∀ xs : List PyVal, npFreeList xs = true →
      to_nativeList (to_nativeList xs) = to_nativeList xs
  | [], _ => rfl
  | x :: xs, h => by
    have hx : npFree x = true ∧ npFreeList xs = true := by
      simpa [npFreeList, Bool.and_eq_true] using h
    simp only [to_nativeList]
    rw [to_native_idem_npFree x hx.1, to_nativeList_idem_npFree xs hx.2]

end

/-- C8 amended: the normalization `to_native` is idempotent on every
value that contains no numpy scalar in a position it recurses into
(dict keys excepted, as they only pass through `str`): normalizing an
already-normalized such value returns an equal value.  On numpy scalars
the code returns `obj.item()` unnormalized, so idempotence fails there
(see the counterexample). -/
theorem to_native_idempotent_np_free (v : PyVal) (h : npFree v = true) :
    to_native (to_native v) = to_native v :=
  to_native_idem_npFree v h

/-- Witness for the amended C8 theorem at a concrete numpy-free value. -/
theorem to_native_idempotent_np_free_witness :
    npFree pyValW = true ∧ to_native (to_native pyValW) = to_native pyValW :=
  ⟨rfl, to_native_idempotent_np_free pyValW rfl⟩

/-! ## Theorems about the `.wcs` plate-transform matrix (claim C9) -/

theorem setdefaultRa_cd_matrix (a : Astro) (v : ℚ) :
    (setdefaultRa a v).cd_matrix = a.cd_matrix := by
  unfold setdefaultRa
  cases a.ra_center <;> rfl

theorem setdefaultDec_cd_matrix (a : Astro) (v : ℚ) :
    (setdefaultDec a v).cd_matrix = a.cd_matrix := by
  unfold setdefaultDec
  cases a.dec_center <;> rfl

/-- C9 counterexample: with `CRVAL1`/`CRVAL2` present but only `CD1_1` of
the four plate-transform fields, a (partial) `cd_matrix` IS stored in the
output, though three of the four named fields are absent. -/
theorem cd_matrix_stored_despite_missing_fields :
    (read_wcs astroEmpty hdrPartialCd).cd_matrix = some [("CD1_1", 1)] ∧
    hdrGet hdrPartialCd "CD1_2" = none ∧
    hdrGet hdrPartialCd "CD2_1" = none ∧
    hdrGet hdrPartialCd "CD2_2" = none := by
  exact ⟨rfl, rfl, rfl, rfl⟩

/-- C9 amended: when the header's `CRVAL1`/`CRVAL2` reads succeed, the
plate-transform matrix is stored iff AT LEAST ONE of the four named
fields is present, and then contains exactly the present fields — not
only when all four are present. -/
theorem read_wcs_cd_matrix_exactly_present_fields (a : Astro) (hdr : Hdr) (v1 v2 : ℚ)
    (h1 : hdrGet hdr "CRVAL1" = some v1) (h2 : hdrGet hdr "CRVAL2" = some v2) :
    (read_wcs a hdr).cd_matrix =
      (if cdFields hdr = [] then a.cd_matrix else some (cdFields hdr)) := by
  simp only [read_wcs, h1, h2]
  by_cases hcd : cdFields hdr = []
  · simp [hcd, setdefaultRa_cd_matrix, setdefaultDec_cd_matrix]
  · simp [hcd, List.isEmpty_iff]

/-- Witness for the amended C9 theorem at a concrete header. -/
theorem read_wcs_cd_matrix_witness :
    hdrGet hdrFullCd "CRVAL1" = some 10 ∧ hdrGet hdrFullCd "CRVAL2" = some 20 ∧
    (read_wcs astroEmpty hdrFullCd).cd_matrix =
      (if cdFields hdrFullCd = [] then astroEmpty.cd_matrix else some (cdFields hdrFullCd)) :=
  ⟨rfl, rfl, read_wcs_cd_matrix_exactly_present_fields astroEmpty hdrFullCd 10 20 rfl rfl⟩


/-! ## Theorems about the worker's persistence order (claim C4) -/

theorem resultBeforeDone_of_not_mem (jid : String) (evs : List Ev)
    (h : Ev.wroteStatus jid "done" ∉ evs) : resultBeforeDone jid evs := by
  intro pre post heq
  exact absurd (heq ▸ List.mem_append_right pre (List.mem_cons_self _ _)) h

theorem resultBeforeDone_mid (jid : String) (l1 l2 : List Ev)
    (h1 : Ev.wroteStatus jid "done" ∉ l1) :
    resultBeforeDone jid (l1 ++ Ev.wroteResult jid :: l2) := by
  intro pre post heq
  induction l1 generalizing pre with
  | nil =>
    cases pre with
    | nil => simp at heq
    | cons a pre' =>
      simp only [List.nil_append, List.cons_append, List.cons.injEq] at heq
      exact heq.1 ▸ List.mem_cons_self _ _
  | cons b t ih =>
    cases pre with
    | nil =>
      simp only [List.cons_append, List.nil_append, List.cons.injEq] at heq
      exact absurd (heq.1 ▸ List.mem_cons_self _ _) h1
    | cons a pre' =>
      simp only [List.cons_append, List.cons.injEq] at heq
      have hm := ih (fun hmem => h1 (List.mem_cons_of_mem _ hmem)) pre' heq.2
      exact List.mem_cons_of_mem _ hm

theorem ensure_eq_of_mem (st : Store) (jid : String) (h : jid ∈ st.dirs) :
    ensure_job_dirs st jid = st := by
  simp [ensure_job_dirs, h]

theorem ensure_eq_of_not_mem (st : Store) (jid : String) (h : jid ∉ st.dirs) :
    ensure_job_dirs st jid =
      { st with dirs := jid :: st.dirs, events := st.events ++ [Ev.mkdirs jid] } := by
  simp [ensure_job_dirs, h]

theorem mem_ensure_self (st : Store) (jid : String) :
    jid ∈ (ensure_job_dirs st jid).dirs := by
  by_cases h : jid ∈ st.dirs
  · rw [ensure_eq_of_mem st jid h]; exact h
  · rw [ensure_eq_of_not_mem st jid h]; exact List.mem_cons_self _ _

theorem write_status_of_mem (st : Store) (jid s : String) (m : Option String)
    (p : Option JobParams) (h : jid ∈ st.dirs) :
    write_status st jid s m p =
      { st with
          statuses := (jid, statusDocNow st jid s m p) :: st.statuses,
          events := st.events ++ [Ev.wroteStatus jid s],
          clock := st.clock + 1 } := by
  simp only [write_status, ensure_eq_of_mem st jid h]

theorem lookup_cons_self {β : Type} (jid : String) (d : β) (rest : List (String × β)) :
    List.lookup jid ((jid, d) :: rest) = some d := by
  simp [List.lookup]

/-- The persistence events a worker run appends: possibly the directory
creation, then the `processing` status, then (when the child ran) the
log append, the result write and the terminal status — `done` exactly
when the derived result's `ok` flag is `true`. -/
theorem run_worker_newEvents (st : Store) (jid image : String) (p : JobParams)
    (oc : ExecOutcome) :
    newEvents st (run_worker st jid image p oc).1 =
      (if jid ∈ st.dirs then ([] : List Ev) else [Ev.mkdirs jid]) ++
      (Ev.wroteStatus jid "processing" ::
        (match oc with
         | .raised _ => [Ev.wroteStatus jid "error"]
         | .ran rc stdout parsed =>
           [Ev.wroteLog jid, Ev.wroteResult jid,
            Ev.wroteStatus jid
              (if (worker_result rc stdout parsed).ok = some true then "done"
               else "error")])) := by
  have hmA : jid ∈ (ensure_job_dirs st jid).dirs := mem_ensure_self st jid
  have hAev : (ensure_job_dirs st jid).events =
      st.events ++ (if jid ∈ st.dirs then ([] : List Ev) else [Ev.mkdirs jid]) := by
    by_cases hm : jid ∈ st.dirs
    · simp [ensure_eq_of_mem st jid hm, hm]
    · simp [ensure_eq_of_not_mem st jid hm, hm]
  cases oc with
  | raised e =>
    simp only [run_worker]
    rw [write_status_of_mem _ jid "processing" _ _ hmA]
    rw [write_status_of_mem]
    · simp only [newEvents, hAev, List.append_assoc, List.cons_append,
        List.nil_append, List.singleton_append]
      rw [List.drop_left]
    · exact hmA
  | ran rc stdout parsed =>
    by_cases hok : (worker_result rc stdout parsed).ok = some true
    · simp only [run_worker]
      rw [write_status_of_mem _ jid "processing" _ _ hmA]
      simp only [append_log, write_result]
      rw [if_pos hok]
      rw [write_status_of_mem]
      · simp only [newEvents, hAev, List.append_assoc, List.cons_append,
          List.nil_append, List.singleton_append]
        rw [List.drop_left]
        simp [hok]
      · exact hmA
    · simp only [run_worker]
      rw [write_status_of_mem _ jid "processing" _ _ hmA]
      simp only [append_log, write_result]
      rw [if_neg hok]
      rw [write_status_of_mem]
      · simp only [newEvents, hAev, List.append_assoc, List.cons_append,
          List.nil_append, List.singleton_append]
        rw [List.drop_left]
        simp [hok]
      · exact hmA

theorem statusDocNow_state (st : Store) (jid s : String) (m : Option String)
    (p : Option JobParams) : (statusDocNow st jid s m p).state = s := by
  simp only [statusDocNow]

theorem statusDocNow_message (st : Store) (jid s : String) (m : Option String)
    (p : Option JobParams) : (statusDocNow st jid s m p).message = m := by
  simp only [statusDocNow]

/-- C4: in the worker's persistence trace, every flip of the job's status
to the terminal `done` state is preceded by a write of the result
document, and a store in which the worker left the status `done` holds a
result document for the job — a reader observing `done` cannot find the
result missing.  (On the path where launching the child raised, no
`done` flip occurs at all.) -/
theorem worker_persists_result_before_done (st : Store) (jid image : String)
    (p : JobParams) (oc : ExecOutcome) :
    resultBeforeDone jid (newEvents st (run_worker st jid image p oc).1) ∧
    ((((run_worker st jid image p oc).1.statuses.lookup jid).map StatusDoc.state
        = some "done") →
      ((run_worker st jid image p oc).1.results.lookup jid).isSome = true) := by
  have hmA : jid ∈ (ensure_job_dirs st jid).dirs := mem_ensure_self st jid
  constructor
  · rw [run_worker_newEvents]
    cases oc with
    | raised e =>
      apply resultBeforeDone_of_not_mem
      by_cases hm : jid ∈ st.dirs <;> simp [hm]
    | ran rc stdout parsed =>
      by_cases hok : (worker_result rc stdout parsed).ok = some true
      · by_cases hm : jid ∈ st.dirs
        · simpa [hm, hok] using resultBeforeDone_mid jid
            [Ev.wroteStatus jid "processing", Ev.wroteLog jid]
            [Ev.wroteStatus jid "done"] (by simp)
        · simpa [hm, hok] using resultBeforeDone_mid jid
            [Ev.mkdirs jid, Ev.wroteStatus jid "processing", Ev.wroteLog jid]
            [Ev.wroteStatus jid "done"] (by simp)
      · apply resultBeforeDone_of_not_mem
        by_cases hm : jid ∈ st.dirs <;> simp [hm, hok]
  · cases oc with
    | raised e =>
      simp only [run_worker]
      rw [write_status_of_mem _ jid "processing" _ _ hmA]
      rw [write_status_of_mem]
      · intro hdone
        exfalso
        simp [lookup_cons_self, statusDocNow_state] at hdone
      · exact hmA
    | ran rc stdout parsed =>
      simp only [run_worker]
      rw [write_status_of_mem _ jid "processing" _ _ hmA]
      simp only [append_log, write_result]
      by_cases hok : (worker_result rc stdout parsed).ok = some true
      · rw [if_pos hok, write_status_of_mem]
        · intro hdone
          simp [lookup_cons_self]
        · exact hmA
      · rw [if_neg hok, write_status_of_mem]
        · intro hdone
          exfalso
          simp [lookup_cons_self, statusDocNow_state] at hdone
        · exact hmA

/-! ## Theorems about failure handling in the worker (claim C5) -/

theorem ensure_statuses (st : Store) (jid : String) :
    (ensure_job_dirs st jid).statuses = st.statuses := by
  unfold ensure_job_dirs
  split <;> rfl

theorem ensure_results (st : Store) (jid : String) :
    (ensure_job_dirs st jid).results = st.results := by
  unfold ensure_job_dirs
  split <;> rfl

theorem ensure_inputs (st : Store) (jid : String) :
    (ensure_job_dirs st jid).inputs = st.inputs := by
  unfold ensure_job_dirs
  split <;> rfl

theorem ensure_logs (st : Store) (jid : String) :
    (ensure_job_dirs st jid).logs = st.logs := by
  unfold ensure_job_dirs
  split <;> rfl

theorem write_status_dirs (st : Store) (jid s : String) (m : Option String)
    (p : Option JobParams) :
    (write_status st jid s m p).dirs = (ensure_job_dirs st jid).dirs := by
  simp only [write_status]

theorem write_status_results (st : Store) (jid s : String) (m : Option String)
    (p : Option JobParams) :
    (write_status st jid s m p).results = st.results := by
  simp only [write_status]
  exact ensure_results st jid

theorem write_status_inputs (st : Store) (jid s : String) (m : Option String)
    (p : Option JobParams) :
    (write_status st jid s m p).inputs = st.inputs := by
  simp only [write_status]
  exact ensure_inputs st jid

theorem write_status_logs (st : Store) (jid s : String) (m : Option String)
    (p : Option JobParams) :
    (write_status st jid s m p).logs = st.logs := by
  simp only [write_status]
  exact ensure_logs st jid

theorem write_status_statuses (st : Store) (jid s : String) (m : Option String)
    (p : Option JobParams) :
    (write_status st jid s m p).statuses =
      (jid, statusDocNow (ensure_job_dirs st jid) jid s m p) :: st.statuses := by
  simp only [write_status]
  rw [ensure_statuses]

theorem write_result_results (st : Store) (jid : String) (r : ResultDoc) :
    (write_result st jid r).results = (jid, r) :: st.results := rfl

theorem write_result_statuses (st : Store) (jid : String) (r : ResultDoc) :
    (write_result st jid r).statuses = st.statuses := rfl

theorem write_result_dirs (st : Store) (jid : String) (r : ResultDoc) :
    (write_result st jid r).dirs = st.dirs := rfl

theorem append_log_results (st : Store) (jid txt : String) :
    (append_log st jid txt).results = st.results := rfl

theorem append_log_statuses (st : Store) (jid txt : String) :
    (append_log st jid txt).statuses = st.statuses := rfl

theorem append_log_dirs (st : Store) (jid txt : String) :
    (append_log st jid txt).dirs = st.dirs := rfl

theorem str_append_ne_empty (s t : String) (h : s ≠ "") : s ++ t ≠ "" := by
  intro heq
  have hd := congrArg String.data heq
  rw [String.data_append] at hd
  exact h (String.ext (List.append_eq_nil.mp hd).1)

/-- C5 counterexample: when launching the child process raises (an
execution error), the worker flips the status to `error` but persists NO
result document at all — `result(jobId)` cannot return an `ok=false`
document because none exists. -/
theorem worker_exec_error_leaves_no_result :
    ((run_worker storeEmpty "j1" "img.jpg" paramsEmpty (.raised "boom")).1.results.lookup
        "j1" = none) ∧
    (((run_worker storeEmpty "j1" "img.jpg" paramsEmpty
        (.raised "boom")).1.statuses.lookup "j1").map StatusDoc.state = some "error") ∧
    ((cmd_result (run_worker storeEmpty "j1" "img.jpg" paramsEmpty
        (.raised "boom")).1 "j1").2.2 =
      CliOut.resultNotReady "error" "j1") := by
  exact ⟨rfl, rfl, rfl⟩

theorem postFail_of_worker_result (st : Store) (jid image : String) (p : JobParams)
    (rc : ℤ) (stdout : String) (parsed : Option ResultDoc)
    (hfalse : (worker_result rc stdout parsed).ok = some false)
    (herr : ∃ e, (worker_result rc stdout parsed).error = some e ∧ e ≠ "") :
    postFail st jid image p (.ran rc stdout parsed) := by
  have hok : ¬((worker_result rc stdout parsed).ok = some true) := by
    rw [hfalse]
    simp
  have hmA : jid ∈ (ensure_job_dirs st jid).dirs := mem_ensure_self st jid
  have hstep : (run_worker st jid image p (.ran rc stdout parsed)).1 =
      write_status (write_result (append_log (write_status (ensure_job_dirs st jid) jid
        "processing" (some "Solving image…") (some p)) jid stdout) jid
        (worker_result rc stdout parsed)) jid "error"
        (some (pyStrOfOpt (worker_result rc stdout parsed).error)) none := by
    simp only [run_worker]
    rw [if_neg hok]
  refine ⟨worker_result rc stdout parsed, ?_, hfalse, herr, ?_, ?_, ?_⟩
  · rw [hstep, write_status_results, write_result_results, lookup_cons_self]
  · rw [hstep, write_status_statuses, lookup_cons_self]
    simp [statusDocNow_state]
  · rw [hstep, write_status_statuses, lookup_cons_self]
    simp [statusDocNow_message]
  · rw [hstep]
    have hdF : jid ∈ (write_status (write_result (append_log
        (write_status (ensure_job_dirs st jid) jid "processing"
          (some "Solving image…") (some p)) jid stdout) jid
        (worker_result rc stdout parsed)) jid "error"
        (some (pyStrOfOpt (worker_result rc stdout parsed).error)) none).dirs := by
      rw [write_status_dirs]
      exact mem_ensure_self _ _
    simp only [cmd_result]
    rw [ensure_eq_of_mem _ _ hdF]
    rw [write_status_results, write_result_results, lookup_cons_self]

/-- C5 amended: for every worker failure in which the child process ran
— solver error or timeout (an `astro_extract` failure document, exit 2),
a missing image (exit 1), malformed worker output (unparseable stdout at
an accepted exit code), or any other unexpected exit code — the worker
persists a result document with `ok=false` and a non-empty error
message, flips the status to `error` carrying that message, and
`result(jobId)` afterwards returns that document.  (For an execution
error, where launching the child itself raises, only the `error` status
is persisted and no result document is written — see the
counterexample.) -/
theorem worker_failures_persist_error_result (st : Store) (jid image : String)
    (p : JobParams) :
    (∀ eo : ExtractOutcome, eo ≠ .solved →
      postFail st jid image p (extract_to_exec eo)) ∧
    (∀ (rc : ℤ) (stdout : String), (rc = 0 ∨ rc = 2) →
      postFail st jid image p (.ran rc stdout none)) ∧
    (∀ (rc : ℤ) (stdout : String) (parsed : Option ResultDoc), ¬(rc = 0 ∨ rc = 2) →
      postFail st jid image p (.ran rc stdout parsed)) := by
  refine ⟨?_, ?_, ?_⟩
  · intro eo hne
    cases eo with
    | imageMissing path =>
      simp only [extract_to_exec, extract_exit, extract_doc]
      apply postFail_of_worker_result
      · simp [worker_result]
      · refine ⟨"astro_extract exit code " ++ toString (1 : ℤ), ?_, ?_⟩
        · simp [worker_result]
        · exact str_append_ne_empty _ _ (by decide)
    | solveRaised f =>
      simp only [extract_to_exec, extract_exit, extract_doc]
      apply postFail_of_worker_result
      · simp [worker_result]
      · refine ⟨solveFailureMsg f, ?_, ?_⟩
        · simp [worker_result]
        · cases f with
          | timeout => decide
          | failed code out err =>
            simp only [solveFailureMsg]
            exact str_append_ne_empty _ _ (str_append_ne_empty _ _
              (str_append_ne_empty _ _ (str_append_ne_empty _ _
                (str_append_ne_empty _ _ (by decide)))))
    | solved => exact absurd rfl hne
  · intro rc stdout hrc
    apply postFail_of_worker_result
    · simp [worker_result, hrc]
    · exact ⟨"Invalid JSON from astro_extract", by simp [worker_result, hrc], by decide⟩
  · intro rc stdout parsed hrc
    apply postFail_of_worker_result
    · simp [worker_result, hrc]
    · exact ⟨"astro_extract exit code " ++ toString rc,
        by simp [worker_result, hrc], str_append_ne_empty _ _ (by decide)⟩

/-! ## Theorems about `submit` with a missing image (claim C6) -/

/-- C6 counterexample: submitting a nonexistent image does NOT leave the
disk free of job artifacts — `cmd_submit` creates the job's directory
tree before validating the image reference, so the directories exist
afterwards (though no status document was written). -/
theorem submit_missing_image_creates_dirs :
    ((cmd_submit storeEmpty "j1" false "img.jpg" paramsEmpty).1.dirs = ["j1"]) ∧
    ((cmd_submit storeEmpty "j1" false "img.jpg" paramsEmpty).2.2 =
      CliOut.submitErr ("Image not found: " ++ "img.jpg")) := by
  exact ⟨rfl, rfl⟩

/-- C6 amended: submitting a nonexistent image reports the
image-not-found error and persists no status document, no input copy and
no result — `status(jobId)` afterwards still reports not-found — but the
job's (empty) artifact directories ARE created before validation. -/
theorem submit_missing_image_no_status_but_dirs (st : Store) (jid imageName : String)
    (p : JobParams) :
    ((cmd_submit st jid false imageName p).2.1 = 1) ∧
    ((cmd_submit st jid false imageName p).2.2 =
      CliOut.submitErr ("Image not found: " ++ imageName)) ∧
    ((cmd_submit st jid false imageName p).1.statuses = st.statuses) ∧
    ((cmd_submit st jid false imageName p).1.results = st.results) ∧
    ((cmd_submit st jid false imageName p).1.inputs = st.inputs) ∧
    ((cmd_submit st jid false imageName p).1.dirs = (ensure_job_dirs st jid).dirs) ∧
    (st.statuses.lookup jid = none →
      (cmd_status (cmd_submit st jid false imageName p).1 jid).2.2 =
        CliOut.statusNotFound jid) := by
  refine ⟨rfl, rfl, ensure_statuses st jid, ensure_results st jid,
    ensure_inputs st jid, rfl, ?_⟩
  intro h
  show (cmd_status (ensure_job_dirs st jid) jid).2.2 = CliOut.statusNotFound jid
  simp only [cmd_status, read_status]
  rw [ensure_eq_of_mem _ _ (mem_ensure_self st jid)]
  rw [ensure_statuses, h]

/-! ## Theorems about the read-only-ness of `status`/`result` (claim C7) -/

theorem cmd_status_store (st : Store) (jid : String) :
    (cmd_status st jid).1 = ensure_job_dirs st jid := by
  simp only [cmd_status, read_status]
  cases (ensure_job_dirs st jid).statuses.lookup jid <;> rfl

theorem cmd_result_store (st : Store) (jid : String) :
    (cmd_result st jid).1 = ensure_job_dirs st jid := by
  simp only [cmd_result, read_status]
  cases h : (ensure_job_dirs st jid).results.lookup jid
  · rw [ensure_eq_of_mem _ _ (mem_ensure_self st jid)]
  · rfl

/-- C7 counterexample: querying the status of a job that was never
created changes the persisted state — it creates the job's directory
tree on disk (while correctly reporting not-found). -/
theorem status_query_creates_dirs :
    ((cmd_status storeEmpty "zzz").1.dirs = ["zzz"]) ∧
    (storeEmpty.dirs = []) ∧
    ((cmd_status storeEmpty "zzz").2.2 = CliOut.statusNotFound "zzz") := by
  exact ⟨rfl, rfl, rfl⟩

/-- C7 amended: `status` and `result` never touch the status documents,
result documents, input copies or logs, and `status` reports not-found
for an unknown identifier — but both create the queried job's directory
tree when it does not exist (they call `ensure_job_dirs`), so the
directories are not left unchanged. -/
theorem status_result_queries_touch_only_dirs (st : Store) (jid : String) :
    ((cmd_status st jid).1.statuses = st.statuses ∧
     (cmd_status st jid).1.results = st.results ∧
     (cmd_status st jid).1.inputs = st.inputs ∧
     (cmd_status st jid).1.logs = st.logs ∧
     (cmd_status st jid).1.dirs = (ensure_job_dirs st jid).dirs) ∧
    ((cmd_result st jid).1.statuses = st.statuses ∧
     (cmd_result st jid).1.results = st.results ∧
     (cmd_result st jid).1.inputs = st.inputs ∧
     (cmd_result st jid).1.logs = st.logs ∧
     (cmd_result st jid).1.dirs = (ensure_job_dirs st jid).dirs) ∧
    (st.statuses.lookup jid = none →
      (cmd_status st jid).2.2 = CliOut.statusNotFound jid) := by
  refine ⟨?_, ?_, ?_⟩
  · rw [cmd_status_store]
    exact ⟨ensure_statuses st jid, ensure_results st jid, ensure_inputs st jid,
      ensure_logs st jid, rfl⟩
  · rw [cmd_result_store]
    exact ⟨ensure_statuses st jid, ensure_results st jid, ensure_inputs st jid,
      ensure_logs st jid, rfl⟩
  · intro h
    simp only [cmd_status, read_status]
    rw [ensure_statuses, h]
